import Mathlib

/-!
# Verification of the `rootfn` evolutionary root-finding program

Shallow embedding of `src/main.rs` (crate `rootfn`): a genetic-algorithm style
root finder for a scalar function, with two selection strategies (elitism,
tournament), three rearrangement strategies (none, genocide, random predation)
and a run loop with a global-best / tolerance termination policy.

Modelling conventions:
* `f64` values are modelled as `ℚ` (every constant of the program is an exact
  rational and every operation used is field arithmetic plus `abs`, so the
  structure of the algorithms is preserved; IEEE rounding is not modelled).
  A separate small IEEE-style type `F` (with `nan`/`inf`) is used to analyse
  the NaN behaviour of `best_index`, where it matters.
* randomness (`thread_rng().gen_range(lo..hi)`) is modelled by explicit
  oracle parameters: a draw from `lo..hi` is `lo + u * (hi - lo)` for an
  oracle-supplied `u`; a uniform draw corresponds to `0 ≤ u < 1`.  Draws of
  indices (`gen_range(0..len)`) are modelled as oracle-supplied naturals.
* `Vec<f64>` is `List ℚ`; `self.ind.get(i).unwrap()` is modelled by `getD`
  (the program only indexes in bounds, where the two agree).
* the run loop's plotting/series recording and wall-clock timing
  (`best_data`, `aveg_data`, `run_duration`, `plot_data`) are external
  reporting collaborators and do not feed back into the algorithm; they are
  omitted from the state.
-/

namespace RootFn

/-! ## Constants (`src/main.rs` lines 14-38) -/

/-- `const INITIAL_INTERVAL: Range<f64> = -100.0..100.0;` -/
def INITIAL_INTERVAL : ℚ × ℚ := (-100, 100)

/-- `const POPULATION_SIZE: usize = 100;` -/
def POPULATION_SIZE : ℕ := 100

/-- `const MUTATION_RATE: f64 = 0.001;` -/
def MUTATION_RATE : ℚ := 1 / 1000

/-- `const MUTATION_INTERVAL: Range<f64> = -10.0..10.0;` -/
def MUTATION_INTERVAL : ℚ × ℚ := (-10, 10)

/-- `const MAX_GENERATIONS: u64 = 100_000;` -/
def MAX_GENERATIONS : ℕ := 100000

/-- `const FITNESS_TOLERANCE: f64 = 1e-4;` -/
def FITNESS_TOLERANCE : ℚ := 1 / 10000

/-- `const BEST_DELTA: f64 = 1e-8;` -/
def BEST_DELTA : ℚ := 1 / 100000000

/-- `const COUNTER_GENOCIDE: u8 = 5;` (the counter stays below 5, so `ℕ`
models the `u8` faithfully — no overflow is reachable). -/
def COUNTER_GENOCIDE : ℕ := 5

/-! ## Random draws

`thread_rng().gen_range(lo..hi)` returns a uniform element of `[lo, hi)` and
panics when the range is empty.  `gen_range lo hi u` is the drawn value for
oracle parameter `u` (uniform draw ⟺ `0 ≤ u < 1`); `gen_range?` additionally
models the panic-on-empty-range behaviour of `rand`. -/

def gen_range (lo hi u : ℚ) : ℚ := lo + u * (hi - lo)

/-- `rand`'s `gen_range` panics if `lo ≥ hi`; `none` models that panic. -/
def gen_range? (lo hi u : ℚ) : Option ℚ :=
  if lo < hi then some (gen_range lo hi u) else none

/-! ## The objective function and primitives (`src/main.rs` 131-133, 351-357, 422-430) -/

/-- `fn function(x: f64) -> f64 { (x - 478.0) * (x + 4567.0) * (x - 1240.0) }` -/
def function (x : ℚ) : ℚ := (x - 478) * (x + 4567) * (x - 1240)

/-- `Population::fitness`: `function(x).abs()` -/
def fitness (x : ℚ) : ℚ := |function x|

/-- `fn individual() -> f64 { thread_rng().gen_range(INITIAL_INTERVAL) }` -/
def individual (u : ℚ) : ℚ := gen_range INITIAL_INTERVAL.1 INITIAL_INTERVAL.2 u

/-- `fn mutation(i: f64) -> f64 { i + thread_rng().gen_range(MUTATION_INTERVAL) * MUTATION_RATE }` -/
def mutation (i u : ℚ) : ℚ :=
  i + gen_range MUTATION_INTERVAL.1 MUTATION_INTERVAL.2 u * MUTATION_RATE

/-! ## Strategy enums (`src/main.rs` 40-68) -/

inductive Selection where
  | Elitism : Selection
  | Tournament : Selection
deriving DecidableEq

inductive Rearrangement where
  | None : Rearrangement
  | Genocide : Rearrangement
  | RandomPredation : Rearrangement
deriving DecidableEq

/-! ## The population (`src/main.rs` 70-100) -/

/-- `struct Population` (the `run_duration` field, pure reporting, is omitted). -/
structure Population where
  selection : Selection
  rearrangement : Rearrangement
  range : ℚ × ℚ
  ind : List ℚ
  generation : ℕ
  global_best : Option ℚ
  best : Option ℚ
  last_best : Option ℚ
deriving DecidableEq

/-- `Population::value`: `self.ind.get(index).unwrap().clone()`.  All call
sites index in bounds, where `getD` agrees with the panicking `unwrap`. -/
def value (ind : List ℚ) (index : ℕ) : ℚ := ind.getD index 0

/-- `Population::new`: `POPULATION_SIZE` fresh draws from `INITIAL_INTERVAL`,
generation 0, all three best trackers unset. -/
def Population.new (selection : Selection) (rearrangement : Rearrangement)
    (oInit : ℕ → ℚ) : Population :=
  { selection := selection
    rearrangement := rearrangement
    range := INITIAL_INTERVAL
    ind := (List.range POPULATION_SIZE).map (fun i => individual (oInit i))
    generation := 0
    global_best := none
    best := none
    last_best := none }

/-! ## Best/worst scans (`src/main.rs` 113-129 and 207-216)

Both `best_index` and the inline worst scan of `random_predation` initialise
the running value with the fitness of index 0 and then scan all indices,
updating on a strict comparison only. -/

/-- The scan loop of `Population::best_index`: running pair
`(best, index)` initialised to `(g 0, 0)`, updated when `g i < best`. -/
def scanMin (g : ℕ → ℚ) (n : ℕ) : ℚ × ℕ :=
  (List.range n).foldl (fun acc i => if g i < acc.1 then (g i, i) else acc) (g 0, 0)

/-- The scan loop of `Population::random_predation`: updated when `g i > worst`. -/
def scanMax (g : ℕ → ℚ) (n : ℕ) : ℚ × ℕ :=
  (List.range n).foldl (fun acc i => if g i > acc.1 then (g i, i) else acc) (g 0, 0)

/-- `Population::best_index` (`src/main.rs` 113-129). -/
def best_index (ind : List ℚ) : ℕ :=
  (scanMin (fun i => fitness (value ind i)) ind.length).2

/-- The inline worst scan of `Population::random_predation` (`src/main.rs` 208-216). -/
def worst_index (ind : List ℚ) : ℕ :=
  (scanMax (fun i => fitness (value ind i)) ind.length).2

/-! ## Selection: elitism (`src/main.rs` 135-147) -/

/-- `Population::elitism`: capture the champion, then for each `i` other than
the champion's index overwrite `ind[i]` in place with
`mutation((value(i) + best) / 2)`; finally `generation += 1`.
`oMut i` is the oracle value for the mutation draw at index `i`. -/
def elitism (oMut : ℕ → ℚ) (p : Population) : Population :=
  let bi := best_index p.ind
  let best := value p.ind bi
  { p with
    ind := (List.range p.ind.length).foldl
      (fun acc i =>
        if i ≠ bi then acc.set i (mutation ((value acc i + best) / 2) (oMut i)) else acc)
      p.ind
    generation := p.generation + 1 }

/-! ## Selection: tournament (`src/main.rs` 149-193) -/

/-- The mini-tournament expression of `Population::tournament`:
`if fitness(x1) < fitness(x2) { x1 } else { x2 }` — note that on equal
fitness the *second* drawn individual `x2` is returned. -/
def miniTournament (x1 x2 : ℚ) : ℚ :=
  if fitness x1 < fitness x2 then x1 else x2

/-- One child of `Population::tournament`: two mini-tournaments over four
drawn indices `d = (d1, d2, d3, d4)` giving `dad` and `mom`, then
`mutation((dad + mom) / 2)` with mutation oracle `u`. -/
def tournamentChild (ind : List ℚ) (d : ℕ × ℕ × ℕ × ℕ) (u : ℚ) : ℚ :=
  let dad := miniTournament (value ind d.1) (value ind d.2.1)
  let mom := miniTournament (value ind d.2.2.1) (value ind d.2.2.2)
  mutation ((dad + mom) / 2) u

/-- `Population::tournament`: capture the champion; build a `children` vector
(champion kept at its index, a tournament child everywhere else), reading only
the pre-selection `ind`; then commit `children` index by index; finally
`generation += 1`.  `oIdx i` supplies the four index draws for child `i`,
`oMut i` the mutation draw. -/
def tournament (oIdx : ℕ → ℕ × ℕ × ℕ × ℕ) (oMut : ℕ → ℚ) (p : Population) : Population :=
  let bi := best_index p.ind
  let best := value p.ind bi
  let children := (List.range p.ind.length).map
    (fun i => if i ≠ bi then tournamentChild p.ind (oIdx i) (oMut i) else best)
  { p with
    ind := (List.range p.ind.length).foldl (fun acc i => acc.set i (value children i)) p.ind
    generation := p.generation + 1 }

/-! ## Rearrangements (`src/main.rs` 195-219) -/

/-- `Population::genocide`: draw `m ∈ [0.1, 2.0)`, scale both interval
endpoints by `m`, clear `best`/`last_best`, and respawn every individual
uniformly from the scaled interval.  `uM` is the oracle for the multiplier
draw, `uS i` for the respawn draw at index `i`. -/
def genocide (uM : ℚ) (uS : ℕ → ℚ) (p : Population) : Population :=
  let m := gen_range (1 / 10) 2 uM
  let start := p.range.1 * m
  let e := p.range.2 * m
  { p with
    range := (start, e)
    best := none
    last_best := none
    ind := (List.range p.ind.length).foldl
      (fun acc i => acc.set i (gen_range start e (uS i))) p.ind }

/-- `Population::random_predation`: replace the individual at the worst index
with `individual()` — a fresh draw from `INITIAL_INTERVAL` (the function
`individual` uses the constant interval, not `self.range`). -/
def random_predation (u : ℚ) (p : Population) : Population :=
  { p with ind := p.ind.set (worst_index p.ind) (individual u) }

/-! ## The run loop (`src/main.rs` 221-335)

The loop body is split into the evaluate / select / rearrange phases of one
iteration; `states` iterates it.  The local `counter: u8` of `run` lives in
`RunState`.  Per-iteration randomness is an explicit `StepOracle`. -/

/-- The random draws consumed by one loop iteration. -/
structure StepOracle where
  idxDraws : ℕ → ℕ × ℕ × ℕ × ℕ
  mutDraws : ℕ → ℚ
  genoM : ℚ
  genoSpawn : ℕ → ℚ
  predSpawn : ℚ

/-- Loop state: the population plus the local stagnation counter of `run`. -/
structure RunState where
  pop : Population
  counter : ℕ

/-- Lines 231-242 of `run`: read the best individual, shift `best` into
`last_best`, set `best`, and update `global_best` when the new best has
strictly lower fitness (initialise it unconditionally when unset). -/
def evalStep (p : Population) : Population :=
  let best := value p.ind (best_index p.ind)
  { p with
    last_best := p.best
    best := some best
    global_best :=
      match p.global_best with
      | some global => if fitness best < fitness global then some best else some global
      | none => some best }

/-- Lines 261-264 of `run`: dispatch on the selection strategy. -/
def selectStep (o : StepOracle) (p : Population) : Population :=
  match p.selection with
  | Selection.Elitism => elitism o.mutDraws p
  | Selection.Tournament => tournament o.idxDraws o.mutDraws p

/-- Lines 266-284 of `run`: dispatch on the rearrangement strategy.  For
`Genocide`: only when both `best` and `last_best` are set and their distance
is below `BEST_DELTA` is the counter incremented; reaching
`COUNTER_GENOCIDE` fires `genocide` and resets the counter; a failed delta
check resets the counter; an unset `last_best` (or `best`) leaves it as is. -/
def rearrangeStep (o : StepOracle) (s : RunState) : RunState :=
  match s.pop.rearrangement with
  | Rearrangement.None => s
  | Rearrangement.Genocide =>
    match s.pop.best, s.pop.last_best with
    | some b, some lb =>
      if |b - lb| < BEST_DELTA then
        if s.counter + 1 ≥ COUNTER_GENOCIDE then
          ⟨genocide o.genoM o.genoSpawn s.pop, 0⟩
        else
          ⟨s.pop, s.counter + 1⟩
      else
        ⟨s.pop, 0⟩
    | _, _ => s
  | Rearrangement.RandomPredation => ⟨random_predation o.predSpawn s.pop, s.counter⟩

/-- One full iteration of the `loop` in `run`. -/
def runStep (o : StepOracle) (s : RunState) : RunState :=
  rearrangeStep o ⟨selectStep o (evalStep s.pop), s.counter⟩

/-- The state after `n` loop iterations, given per-iteration oracles `os`. -/
def states (os : ℕ → StepOracle) (s0 : RunState) : ℕ → RunState
  | 0 => s0
  | n + 1 => runStep (os n) (states os s0 n)

/-- Lines 286-290 of `run`: the `break` condition,
`fitness(global_best.unwrap()) < FITNESS_TOLERANCE || generation > MAX_GENERATIONS`.
(`global_best` is always set when the condition is checked; `getD 0` models
the `unwrap`.) -/
def StopCond (p : Population) : Prop :=
  fitness (p.global_best.getD 0) < FITNESS_TOLERANCE ∨ p.generation > MAX_GENERATIONS

instance (p : Population) : Decidable (StopCond p) := by
  unfold StopCond; infer_instance

/-! ## Spec-side definitions

These two definitions transcribe the *claims'* wording (not the source), for
comparison against the source-derived definitions above. -/

/-- The claimed mini-tournament rule: the winner is the one with strictly
lower fitness, and *ties default to the first drawn*. -/
def miniTournamentFirst (x1 x2 : ℚ) : ℚ :=
  if fitness x2 < fitness x1 then x2 else x1

/-- The claimed stagnation-counter update for one generation: increment
exactly when both bests are defined and their distance is below
`BEST_DELTA` (resetting to 0 with a genocide once it reaches
`COUNTER_GENOCIDE`); reset to 0 when the delta condition fails; reset to 0
when the previous best is undefined. -/
def genocideCounterSpec (lastB : Option ℚ) (b : ℚ) (c : ℕ) : ℕ :=
  match lastB with
  | some lb =>
    if |b - lb| < BEST_DELTA then
      if c + 1 ≥ COUNTER_GENOCIDE then 0 else c + 1
    else 0
  | none => 0

/-- Whether the genocide branch of `run` fires in a generation ending with
population `p` (post-selection) and entering counter `c`. -/
def genocideTrigger (p : Population) (c : ℕ) : Bool :=
  match p.best, p.last_best with
  | some b, some lb => decide (|b - lb| < BEST_DELTA) && decide (c + 1 ≥ COUNTER_GENOCIDE)
  | _, _ => false

/-! ## IEEE-style model for the NaN analysis of `best_index`

The claims about NaN/infinite fitness concern `f64` behaviour invisible to
`ℚ`.  `F` models an `f64` as NaN, an infinity, or a finite value; the
operations used by `function`/`fitness`/`best_index` carry IEEE 754
semantics: every comparison involving NaN is false, NaN propagates through
arithmetic. -/

inductive F where
  | nan : F
  | inf : F
  | ninf : F
  | fin : ℚ → F
deriving DecidableEq

/-- IEEE `<` on `f64`: false whenever either side is NaN. -/
def F.lt : F → F → Bool
  | .nan, _ => false
  | _, .nan => false
  | .ninf, .ninf => false
  | .ninf, _ => true
  | .inf, _ => false
  | _, .inf => true
  | .fin _, .ninf => false
  | .fin a, .fin b => decide (a < b)

/-- IEEE addition restricted to the values `F` distinguishes. -/
def F.add : F → F → F
  | .nan, _ => .nan
  | _, .nan => .nan
  | .inf, .ninf => .nan
  | .ninf, .inf => .nan
  | .inf, _ => .inf
  | _, .inf => .inf
  | .ninf, _ => .ninf
  | _, .ninf => .ninf
  | .fin a, .fin b => .fin (a + b)

def F.neg : F → F
  | .nan => .nan
  | .inf => .ninf
  | .ninf => .inf
  | .fin a => .fin (-a)

def F.sub (x y : F) : F := x.add y.neg

/-- IEEE multiplication: `±∞ * 0 = NaN`, NaN propagates, signs multiply. -/
def F.mul : F → F → F
  | .nan, _ => .nan
  | _, .nan => .nan
  | .inf, .inf => .inf
  | .inf, .ninf => .ninf
  | .ninf, .inf => .ninf
  | .ninf, .ninf => .inf
  | .inf, .fin b => if 0 < b then .inf else if b < 0 then .ninf else .nan
  | .fin a, .inf => if 0 < a then .inf else if a < 0 then .ninf else .nan
  | .ninf, .fin b => if 0 < b then .ninf else if b < 0 then .inf else .nan
  | .fin a, .ninf => if 0 < a then .ninf else if a < 0 then .inf else .nan
  | .fin a, .fin b => .fin (a * b)

def F.abs : F → F
  | .nan => .nan
  | .inf => .inf
  | .ninf => .inf
  | .fin a => .fin |a|

/-- `function` over `F`. -/
def functionF (x : F) : F :=
  ((x.sub (.fin 478)).mul (x.add (.fin 4567))).mul (x.sub (.fin 1240))

/-- `Population::fitness` over `F`. -/
def fitnessF (x : F) : F := (functionF x).abs

def valueF (ind : List F) (index : ℕ) : F := ind.getD index (.fin 0)

/-- `Population::best_index` over `F`: the same scan as `best_index`, with
the IEEE comparison `current < best`. -/
def best_indexF (ind : List F) : ℕ :=
  ((List.range ind.length).foldl
    (fun acc i =>
      let current := fitnessF (valueF ind i)
      if F.lt current acc.1 then (current, i) else acc)
    (fitnessF (valueF ind 0), 0)).2

/-! ## Basic lemmas about `value`, `List.set` and the in-place loops -/

lemma value_set_self (l : List ℚ) (i : ℕ) (a : ℚ) (h : i < l.length) :
    value (l.set i a) i = a := by
  simp [value, List.getD, List.getElem?_set_self (by simpa using h)]

lemma value_set_ne (l : List ℚ) (i j : ℕ) (a : ℚ) (h : j ≠ i) :
    value (l.set i a) j = value l j := by
  simp [value, List.getD, List.getElem?_set_ne (fun he => h he.symm)]

lemma value_range_map (f : ℕ → ℚ) (n j : ℕ) (h : j < n) :
    value ((List.range n).map f) j = f j := by
  simp [value, List.getD, List.getElem?_map, List.getElem?_range h]

/-- A loop `for i in is { l[i] = g(i) }` over distinct in-bounds indices:
each index in `is` holds its assigned value, all others are untouched. -/
lemma foldl_set_fixed (g : ℕ → ℚ) :
    ∀ (is : List ℕ) (l : List ℚ), is.Nodup → (∀ i ∈ is, i < l.length) → ∀ j : ℕ,
      value (is.foldl (fun acc i => acc.set i (g i)) l) j
        = if j ∈ is then g j else value l j := by
  intro is
  induction is with
  | nil => intro l _ _ j; simp
  | cons i tl ih =>
    intro l hnd hlt j
    simp only [List.foldl_cons]
    have hi : i < l.length := hlt i (List.mem_cons_self i tl)
    have hnd' := List.nodup_cons.mp hnd
    have hlen : (l.set i (g i)).length = l.length := List.length_set ..
    rw [ih (l.set i (g i)) hnd'.2 (fun a ha => hlen ▸ hlt a (List.mem_cons_of_mem i ha)) j]
    by_cases hji : j = i
    · subst hji
      simp [hnd'.1, value_set_self l j (g j) hi]
    · rw [value_set_ne l i j (g i) hji]
      simp [List.mem_cons, hji]

lemma foldl_set_fixed_length (g : ℕ → ℚ) :
    ∀ (is : List ℕ) (l : List ℚ),
      (is.foldl (fun acc i => acc.set i (g i)) l).length = l.length := by
  intro is
  induction is with
  | nil => intro l; rfl
  | cons i tl ih =>
    intro l
    simp only [List.foldl_cons]
    rw [ih (l.set i (g i))]
    exact List.length_set ..

/-- The in-place update loop of `elitism` over distinct in-bounds indices:
each non-champion index in `is` reads its own still-unmodified value. -/
lemma foldl_set_mut (bi : ℕ) (best : ℚ) (oMut : ℕ → ℚ) :
    ∀ (is : List ℕ) (l : List ℚ), is.Nodup → (∀ i ∈ is, i < l.length) → ∀ j : ℕ,
      value (is.foldl
        (fun acc i =>
          if i ≠ bi then acc.set i (mutation ((value acc i + best) / 2) (oMut i)) else acc) l) j
        = if j ∈ is ∧ j ≠ bi then mutation ((value l j + best) / 2) (oMut j) else value l j := by
  intro is
  induction is with
  | nil => intro l _ _ j; simp
  | cons i tl ih =>
    intro l hnd hlt j
    simp only [List.foldl_cons]
    have hi : i < l.length := hlt i (List.mem_cons_self i tl)
    have hnd' := List.nodup_cons.mp hnd
    have hlen :
        (if i ≠ bi then l.set i (mutation ((value l i + best) / 2) (oMut i)) else l).length
          = l.length := by
      split
      · exact List.length_set ..
      · rfl
    rw [ih (if i ≠ bi then l.set i (mutation ((value l i + best) / 2) (oMut i)) else l)
      hnd'.2 (fun a ha => hlen ▸ hlt a (List.mem_cons_of_mem i ha)) j]
    by_cases hji : j = i
    · subst hji
      by_cases hjb : j = bi
      · simp [hjb, hnd'.1]
      · simp [hjb, hnd'.1, value_set_self l j _ hi]
    · have hv :
          value (if i ≠ bi then l.set i (mutation ((value l i + best) / 2) (oMut i)) else l) j
            = value l j := by
        split
        · exact value_set_ne l i j _ hji
        · rfl
      rw [hv]
      simp [List.mem_cons, hji]

lemma foldl_set_mut_length (bi : ℕ) (best : ℚ) (oMut : ℕ → ℚ) :
    ∀ (is : List ℕ) (l : List ℚ),
      (is.foldl
        (fun acc i =>
          if i ≠ bi then acc.set i (mutation ((value acc i + best) / 2) (oMut i)) else acc)
        l).length = l.length := by
  intro is
  induction is with
  | nil => intro l; rfl
  | cons i tl ih =>
    intro l
    simp only [List.foldl_cons]
    rw [ih]
    split
    · exact List.length_set ..
    · rfl

/-! ## The best/worst scans -/

lemma scanMin_succ (g : ℕ → ℚ) (n : ℕ) :
    scanMin g (n + 1) = if g n < (scanMin g n).1 then (g n, n) else scanMin g n := by
  unfold scanMin
  rw [List.range_succ n, List.foldl_append]
  rfl

lemma scanMin_spec (g : ℕ → ℚ) (n : ℕ) :
    (scanMin g n).1 = g (scanMin g n).2
    ∧ ((scanMin g n).2 = 0 ∨ (scanMin g n).2 < n)
    ∧ (∀ j, j < n → (scanMin g n).1 ≤ g j)
    ∧ (∀ j, j < (scanMin g n).2 → (scanMin g n).1 < g j) := by
  induction n with
  | zero =>
    refine ⟨rfl, Or.inl rfl, ?_, ?_⟩ <;> intro j hj
    · exact absurd hj (Nat.not_lt_zero j)
    · exact absurd hj (Nat.not_lt_zero j)
  | succ n ih =>
    obtain ⟨h1, h2, h3, h4⟩ := ih
    rw [scanMin_succ]
    by_cases h : g n < (scanMin g n).1
    · rw [if_pos h]
      refine ⟨rfl, Or.inr (Nat.lt_succ_self n), ?_, ?_⟩
      · intro j hj
        rcases Nat.lt_succ_iff_lt_or_eq.mp hj with hj' | hj'
        · exact le_of_lt (lt_of_lt_of_le h (h3 j hj'))
        · subst hj'; exact le_refl _
      · intro j hj
        exact lt_of_lt_of_le h (h3 j hj)
    · rw [if_neg h]
      refine ⟨h1, ?_, ?_, h4⟩
      · rcases h2 with h2 | h2
        · exact Or.inl h2
        · exact Or.inr (Nat.lt_succ_of_lt h2)
      · intro j hj
        rcases Nat.lt_succ_iff_lt_or_eq.mp hj with hj' | hj'
        · exact h3 j hj'
        · subst hj'; exact not_lt.mp h

lemma scanMax_succ (g : ℕ → ℚ) (n : ℕ) :
    scanMax g (n + 1) = if g n > (scanMax g n).1 then (g n, n) else scanMax g n := by
  unfold scanMax
  rw [List.range_succ n, List.foldl_append]
  rfl

lemma scanMax_spec (g : ℕ → ℚ) (n : ℕ) :
    (scanMax g n).1 = g (scanMax g n).2
    ∧ ((scanMax g n).2 = 0 ∨ (scanMax g n).2 < n)
    ∧ (∀ j, j < n → g j ≤ (scanMax g n).1)
    ∧ (∀ j, j < (scanMax g n).2 → g j < (scanMax g n).1) := by
  induction n with
  | zero =>
    refine ⟨rfl, Or.inl rfl, ?_, ?_⟩ <;> intro j hj
    · exact absurd hj (Nat.not_lt_zero j)
    · exact absurd hj (Nat.not_lt_zero j)
  | succ n ih =>
    obtain ⟨h1, h2, h3, h4⟩ := ih
    rw [scanMax_succ]
    by_cases h : g n > (scanMax g n).1
    · rw [if_pos h]
      refine ⟨rfl, Or.inr (Nat.lt_succ_self n), ?_, ?_⟩
      · intro j hj
        rcases Nat.lt_succ_iff_lt_or_eq.mp hj with hj' | hj'
        · exact le_of_lt (lt_of_le_of_lt (h3 j hj') h)
        · subst hj'; exact le_refl _
      · intro j hj
        exact lt_of_le_of_lt (h3 j hj) h
    · rw [if_neg h]
      refine ⟨h1, ?_, ?_, h4⟩
      · rcases h2 with h2 | h2
        · exact Or.inl h2
        · exact Or.inr (Nat.lt_succ_of_lt h2)
      · intro j hj
        rcases Nat.lt_succ_iff_lt_or_eq.mp hj with hj' | hj'
        · exact h3 j hj'
        · subst hj'; exact not_lt.mp h

lemma best_index_lt (ind : List ℚ) (h : 0 < ind.length) : best_index ind < ind.length := by
  rcases (scanMin_spec (fun i => fitness (value ind i)) ind.length).2.1 with h0 | hlt
  · rw [best_index, h0]; exact h
  · exact hlt

lemma best_index_min (ind : List ℚ) (j : ℕ) (hj : j < ind.length) :
    fitness (value ind (best_index ind)) ≤ fitness (value ind j) := by
  obtain ⟨h1, _, h3, _⟩ := scanMin_spec (fun i => fitness (value ind i)) ind.length
  have := h3 j hj
  rw [h1] at this
  exact this

lemma best_index_first (ind : List ℚ) (j : ℕ) (hj : j < best_index ind) :
    fitness (value ind (best_index ind)) < fitness (value ind j) := by
  obtain ⟨h1, _, _, h4⟩ := scanMin_spec (fun i => fitness (value ind i)) ind.length
  have := h4 j hj
  rw [h1] at this
  exact this

lemma worst_index_lt (ind : List ℚ) (h : 0 < ind.length) : worst_index ind < ind.length := by
  rcases (scanMax_spec (fun i => fitness (value ind i)) ind.length).2.1 with h0 | hlt
  · rw [worst_index, h0]; exact h
  · exact hlt

lemma worst_index_max (ind : List ℚ) (j : ℕ) (hj : j < ind.length) :
    fitness (value ind j) ≤ fitness (value ind (worst_index ind)) := by
  obtain ⟨h1, _, h3, _⟩ := scanMax_spec (fun i => fitness (value ind i)) ind.length
  have := h3 j hj
  rw [h1] at this
  exact this

lemma worst_index_first (ind : List ℚ) (j : ℕ) (hj : j < worst_index ind) :
    fitness (value ind j) < fitness (value ind (worst_index ind)) := by
  obtain ⟨h1, _, _, h4⟩ := scanMax_spec (fun i => fitness (value ind i)) ind.length
  have := h4 j hj
  rw [h1] at this
  exact this

/-! ## Characterisation of the selection and rearrangement operations -/

lemma elitism_ind_value (oMut : ℕ → ℚ) (p : Population) (j : ℕ) (hj : j < p.ind.length) :
    value (elitism oMut p).ind j
      = if j ≠ best_index p.ind
          then mutation ((value p.ind j + value p.ind (best_index p.ind)) / 2) (oMut j)
          else value p.ind j := by
  simp only [elitism]
  rw [foldl_set_mut (best_index p.ind) (value p.ind (best_index p.ind)) oMut
    (List.range p.ind.length) p.ind (List.nodup_range _)
    (fun a ha => List.mem_range.mp ha) j]
  simp [List.mem_range, hj]

lemma elitism_ind_length (oMut : ℕ → ℚ) (p : Population) :
    (elitism oMut p).ind.length = p.ind.length := by
  simp only [elitism]
  exact foldl_set_mut_length _ _ _ _ _

lemma tournament_ind_value (oIdx : ℕ → ℕ × ℕ × ℕ × ℕ) (oMut : ℕ → ℚ) (p : Population)
    (j : ℕ) (hj : j < p.ind.length) :
    value (tournament oIdx oMut p).ind j
      = if j ≠ best_index p.ind
          then tournamentChild p.ind (oIdx j) (oMut j)
          else value p.ind (best_index p.ind) := by
  simp only [tournament]
  rw [foldl_set_fixed _ (List.range p.ind.length) p.ind (List.nodup_range _)
    (fun a ha => List.mem_range.mp ha) j]
  rw [if_pos (List.mem_range.mpr hj)]
  rw [value_range_map _ _ _ hj]

lemma tournament_ind_length (oIdx : ℕ → ℕ × ℕ × ℕ × ℕ) (oMut : ℕ → ℚ) (p : Population) :
    (tournament oIdx oMut p).ind.length = p.ind.length := by
  simp only [tournament]
  exact foldl_set_fixed_length _ _ _

lemma genocide_ind_length (uM : ℚ) (uS : ℕ → ℚ) (p : Population) :
    (genocide uM uS p).ind.length = p.ind.length := by
  simp only [genocide]
  exact foldl_set_fixed_length _ _ _

lemma random_predation_ind_length (u : ℚ) (p : Population) :
    (random_predation u p).ind.length = p.ind.length := List.length_set ..

lemma random_predation_ind_worst (u : ℚ) (p : Population) (h : 0 < p.ind.length) :
    value (random_predation u p).ind (worst_index p.ind) = individual u :=
  value_set_self _ _ _ (worst_index_lt p.ind h)

lemma random_predation_ind_other (u : ℚ) (p : Population) (i : ℕ)
    (hne : i ≠ worst_index p.ind) :
    value (random_predation u p).ind i = value p.ind i :=
  value_set_ne _ _ _ _ hne

/-! ## Field frame lemmas -/

lemma elitism_range (oMut : ℕ → ℚ) (p : Population) : (elitism oMut p).range = p.range := rfl

lemma elitism_selection (oMut : ℕ → ℚ) (p : Population) :
    (elitism oMut p).selection = p.selection := rfl

lemma elitism_rearrangement (oMut : ℕ → ℚ) (p : Population) :
    (elitism oMut p).rearrangement = p.rearrangement := rfl

lemma elitism_generation (oMut : ℕ → ℚ) (p : Population) :
    (elitism oMut p).generation = p.generation + 1 := rfl

lemma elitism_global_best (oMut : ℕ → ℚ) (p : Population) :
    (elitism oMut p).global_best = p.global_best := rfl

lemma elitism_best (oMut : ℕ → ℚ) (p : Population) : (elitism oMut p).best = p.best := rfl

lemma elitism_last_best (oMut : ℕ → ℚ) (p : Population) :
    (elitism oMut p).last_best = p.last_best := rfl

lemma tournament_range (oIdx : ℕ → ℕ × ℕ × ℕ × ℕ) (oMut : ℕ → ℚ) (p : Population) :
    (tournament oIdx oMut p).range = p.range := rfl

lemma tournament_selection (oIdx : ℕ → ℕ × ℕ × ℕ × ℕ) (oMut : ℕ → ℚ) (p : Population) :
    (tournament oIdx oMut p).selection = p.selection := rfl

lemma tournament_rearrangement (oIdx : ℕ → ℕ × ℕ × ℕ × ℕ) (oMut : ℕ → ℚ) (p : Population) :
    (tournament oIdx oMut p).rearrangement = p.rearrangement := rfl

lemma tournament_generation (oIdx : ℕ → ℕ × ℕ × ℕ × ℕ) (oMut : ℕ → ℚ) (p : Population) :
    (tournament oIdx oMut p).generation = p.generation + 1 := rfl

lemma tournament_global_best (oIdx : ℕ → ℕ × ℕ × ℕ × ℕ) (oMut : ℕ → ℚ) (p : Population) :
    (tournament oIdx oMut p).global_best = p.global_best := rfl

lemma tournament_best (oIdx : ℕ → ℕ × ℕ × ℕ × ℕ) (oMut : ℕ → ℚ) (p : Population) :
    (tournament oIdx oMut p).best = p.best := rfl

lemma tournament_last_best (oIdx : ℕ → ℕ × ℕ × ℕ × ℕ) (oMut : ℕ → ℚ) (p : Population) :
    (tournament oIdx oMut p).last_best = p.last_best := rfl

lemma genocide_range (uM : ℚ) (uS : ℕ → ℚ) (p : Population) :
    (genocide uM uS p).range
      = (p.range.1 * gen_range (1 / 10) 2 uM, p.range.2 * gen_range (1 / 10) 2 uM) := rfl

lemma genocide_selection (uM : ℚ) (uS : ℕ → ℚ) (p : Population) :
    (genocide uM uS p).selection = p.selection := rfl

lemma genocide_rearrangement (uM : ℚ) (uS : ℕ → ℚ) (p : Population) :
    (genocide uM uS p).rearrangement = p.rearrangement := rfl

lemma genocide_generation (uM : ℚ) (uS : ℕ → ℚ) (p : Population) :
    (genocide uM uS p).generation = p.generation := rfl

lemma genocide_global_best (uM : ℚ) (uS : ℕ → ℚ) (p : Population) :
    (genocide uM uS p).global_best = p.global_best := rfl

lemma genocide_best (uM : ℚ) (uS : ℕ → ℚ) (p : Population) :
    (genocide uM uS p).best = none := rfl

lemma genocide_last_best (uM : ℚ) (uS : ℕ → ℚ) (p : Population) :
    (genocide uM uS p).last_best = none := rfl

lemma random_predation_range (u : ℚ) (p : Population) :
    (random_predation u p).range = p.range := rfl

lemma random_predation_selection (u : ℚ) (p : Population) :
    (random_predation u p).selection = p.selection := rfl

lemma random_predation_rearrangement (u : ℚ) (p : Population) :
    (random_predation u p).rearrangement = p.rearrangement := rfl

lemma random_predation_generation (u : ℚ) (p : Population) :
    (random_predation u p).generation = p.generation := rfl

lemma random_predation_global_best (u : ℚ) (p : Population) :
    (random_predation u p).global_best = p.global_best := rfl

lemma random_predation_best (u : ℚ) (p : Population) :
    (random_predation u p).best = p.best := rfl

lemma random_predation_last_best (u : ℚ) (p : Population) :
    (random_predation u p).last_best = p.last_best := rfl

lemma evalStep_ind (p : Population) : (evalStep p).ind = p.ind := rfl

lemma evalStep_range (p : Population) : (evalStep p).range = p.range := rfl

lemma evalStep_selection (p : Population) : (evalStep p).selection = p.selection := rfl

lemma evalStep_rearrangement (p : Population) :
    (evalStep p).rearrangement = p.rearrangement := rfl

lemma evalStep_generation (p : Population) : (evalStep p).generation = p.generation := rfl

lemma evalStep_best (p : Population) :
    (evalStep p).best = some (value p.ind (best_index p.ind)) := rfl

lemma evalStep_last_best (p : Population) : (evalStep p).last_best = p.best := rfl

/-! ## The global best under `evalStep` -/

lemma evalStep_global_best_none (p : Population) (h : p.global_best = none) :
    (evalStep p).global_best = some (value p.ind (best_index p.ind)) := by
  simp only [evalStep, h]

lemma evalStep_global_best_some (p : Population) (g : ℚ) (h : p.global_best = some g) :
    (evalStep p).global_best
      = if fitness (value p.ind (best_index p.ind)) < fitness g
          then some (value p.ind (best_index p.ind)) else some g := by
  simp only [evalStep, h]

lemma evalStep_global_isSome (p : Population) : ((evalStep p).global_best).isSome := by
  cases hg : p.global_best with
  | none => rw [evalStep_global_best_none p hg]; rfl
  | some g =>
    rw [evalStep_global_best_some p g hg]
    split <;> rfl

lemma evalStep_global_le_best (p : Population) :
    fitness ((evalStep p).global_best.getD 0) ≤ fitness ((evalStep p).best.getD 0) := by
  rw [evalStep_best]
  cases hg : p.global_best with
  | none => rw [evalStep_global_best_none p hg]
  | some g =>
    rw [evalStep_global_best_some p g hg]
    split
    · simp
    · simpa using not_lt.mp ‹_›

lemma evalStep_global_le (p : Population) (g : ℚ) (h : p.global_best = some g) :
    fitness ((evalStep p).global_best.getD 0) ≤ fitness g := by
  rw [evalStep_global_best_some p g h]
  split
  · simpa using le_of_lt ‹_›
  · simp

/-! ## `selectStep` -/

lemma selectStep_generation (o : StepOracle) (p : Population) :
    (selectStep o p).generation = p.generation + 1 := by
  obtain ⟨sel, re, rg, ind, gen, gb, b, lb⟩ := p
  cases sel <;> rfl

lemma selectStep_range (o : StepOracle) (p : Population) :
    (selectStep o p).range = p.range := by
  obtain ⟨sel, re, rg, ind, gen, gb, b, lb⟩ := p
  cases sel <;> rfl

lemma selectStep_selection (o : StepOracle) (p : Population) :
    (selectStep o p).selection = p.selection := by
  obtain ⟨sel, re, rg, ind, gen, gb, b, lb⟩ := p
  cases sel <;> rfl

lemma selectStep_rearrangement (o : StepOracle) (p : Population) :
    (selectStep o p).rearrangement = p.rearrangement := by
  obtain ⟨sel, re, rg, ind, gen, gb, b, lb⟩ := p
  cases sel <;> rfl

lemma selectStep_global_best (o : StepOracle) (p : Population) :
    (selectStep o p).global_best = p.global_best := by
  obtain ⟨sel, re, rg, ind, gen, gb, b, lb⟩ := p
  cases sel <;> rfl

lemma selectStep_best (o : StepOracle) (p : Population) :
    (selectStep o p).best = p.best := by
  obtain ⟨sel, re, rg, ind, gen, gb, b, lb⟩ := p
  cases sel <;> rfl

lemma selectStep_last_best (o : StepOracle) (p : Population) :
    (selectStep o p).last_best = p.last_best := by
  obtain ⟨sel, re, rg, ind, gen, gb, b, lb⟩ := p
  cases sel <;> rfl

lemma selectStep_ind_length (o : StepOracle) (p : Population) :
    (selectStep o p).ind.length = p.ind.length := by
  obtain ⟨sel, re, rg, ind, gen, gb, b, lb⟩ := p
  cases sel
  · exact elitism_ind_length _ _
  · exact tournament_ind_length _ _ _

/-! ## `rearrangeStep` branch lemmas -/

lemma rearrangeStep_none (o : StepOracle) (p : Population) (c : ℕ)
    (hre : p.rearrangement = Rearrangement.None) :
    rearrangeStep o ⟨p, c⟩ = ⟨p, c⟩ := by
  simp only [rearrangeStep, hre]

lemma rearrangeStep_pred (o : StepOracle) (p : Population) (c : ℕ)
    (hre : p.rearrangement = Rearrangement.RandomPredation) :
    rearrangeStep o ⟨p, c⟩ = ⟨random_predation o.predSpawn p, c⟩ := by
  simp only [rearrangeStep, hre]

lemma rearrangeStep_genocide (o : StepOracle) (p : Population) (c : ℕ)
    (hre : p.rearrangement = Rearrangement.Genocide) (b lb : ℚ)
    (hb : p.best = some b) (hlb : p.last_best = some lb) :
    rearrangeStep o ⟨p, c⟩
      = if |b - lb| < BEST_DELTA then
          (if c + 1 ≥ COUNTER_GENOCIDE then ⟨genocide o.genoM o.genoSpawn p, 0⟩ else ⟨p, c + 1⟩)
        else ⟨p, 0⟩ := by
  simp only [rearrangeStep, hre, hb, hlb]

lemma rearrangeStep_genocide_nolast (o : StepOracle) (p : Population) (c : ℕ)
    (hre : p.rearrangement = Rearrangement.Genocide) (b : ℚ)
    (hb : p.best = some b) (hlb : p.last_best = none) :
    rearrangeStep o ⟨p, c⟩ = ⟨p, c⟩ := by
  simp only [rearrangeStep, hre, hb, hlb]

lemma rearrangeStep_genocide_nobest (o : StepOracle) (p : Population) (c : ℕ)
    (hre : p.rearrangement = Rearrangement.Genocide)
    (hb : p.best = none) :
    rearrangeStep o ⟨p, c⟩ = ⟨p, c⟩ := by
  simp only [rearrangeStep, hre, hb]

lemma rearrangeStep_pop_generation (o : StepOracle) (s : RunState) :
    (rearrangeStep o s).pop.generation = s.pop.generation := by
  obtain ⟨p, c⟩ := s
  cases hre : p.rearrangement
  · rw [rearrangeStep_none o p c hre]
  · cases hb : p.best with
    | none => rw [rearrangeStep_genocide_nobest o p c hre hb]
    | some b =>
      cases hlb : p.last_best with
      | none => rw [rearrangeStep_genocide_nolast o p c hre b hb hlb]
      | some lb =>
        rw [rearrangeStep_genocide o p c hre b lb hb hlb]
        split_ifs <;> rfl
  · rw [rearrangeStep_pred o p c hre]
    exact random_predation_generation ..

lemma rearrangeStep_pop_global_best (o : StepOracle) (s : RunState) :
    (rearrangeStep o s).pop.global_best = s.pop.global_best := by
  obtain ⟨p, c⟩ := s
  cases hre : p.rearrangement
  · rw [rearrangeStep_none o p c hre]
  · cases hb : p.best with
    | none => rw [rearrangeStep_genocide_nobest o p c hre hb]
    | some b =>
      cases hlb : p.last_best with
      | none => rw [rearrangeStep_genocide_nolast o p c hre b hb hlb]
      | some lb =>
        rw [rearrangeStep_genocide o p c hre b lb hb hlb]
        split_ifs <;> rfl
  · rw [rearrangeStep_pred o p c hre]
    exact random_predation_global_best ..

lemma rearrangeStep_pop_selection (o : StepOracle) (s : RunState) :
    (rearrangeStep o s).pop.selection = s.pop.selection := by
  obtain ⟨p, c⟩ := s
  cases hre : p.rearrangement
  · rw [rearrangeStep_none o p c hre]
  · cases hb : p.best with
    | none => rw [rearrangeStep_genocide_nobest o p c hre hb]
    | some b =>
      cases hlb : p.last_best with
      | none => rw [rearrangeStep_genocide_nolast o p c hre b hb hlb]
      | some lb =>
        rw [rearrangeStep_genocide o p c hre b lb hb hlb]
        split_ifs <;> rfl
  · rw [rearrangeStep_pred o p c hre]
    exact random_predation_selection ..

lemma rearrangeStep_pop_rearrangement (o : StepOracle) (s : RunState) :
    (rearrangeStep o s).pop.rearrangement = s.pop.rearrangement := by
  obtain ⟨p, c⟩ := s
  cases hre : p.rearrangement
  · rw [rearrangeStep_none o p c hre]
    exact hre
  · cases hb : p.best with
    | none =>
      rw [rearrangeStep_genocide_nobest o p c hre hb]
      exact hre
    | some b =>
      cases hlb : p.last_best with
      | none =>
        rw [rearrangeStep_genocide_nolast o p c hre b hb hlb]
        exact hre
      | some lb =>
        rw [rearrangeStep_genocide o p c hre b lb hb hlb]
        split_ifs
        · show (genocide o.genoM o.genoSpawn p).rearrangement = _
          rw [genocide_rearrangement]
          exact hre
        · exact hre
        · exact hre
  · rw [rearrangeStep_pred o p c hre]
    show (random_predation o.predSpawn p).rearrangement = _
    rw [random_predation_rearrangement]
    exact hre

lemma rearrangeStep_pop_ind_length (o : StepOracle) (s : RunState) :
    (rearrangeStep o s).pop.ind.length = s.pop.ind.length := by
  obtain ⟨p, c⟩ := s
  cases hre : p.rearrangement
  · rw [rearrangeStep_none o p c hre]
  · cases hb : p.best with
    | none => rw [rearrangeStep_genocide_nobest o p c hre hb]
    | some b =>
      cases hlb : p.last_best with
      | none => rw [rearrangeStep_genocide_nolast o p c hre b hb hlb]
      | some lb =>
        rw [rearrangeStep_genocide o p c hre b lb hb hlb]
        split_ifs <;> first | rfl | exact genocide_ind_length ..
  · rw [rearrangeStep_pred o p c hre]
    exact random_predation_ind_length ..

/-- The range after `rearrangeStep` is either untouched or the
genocide-scaled one. -/
lemma rearrangeStep_pop_range (o : StepOracle) (s : RunState) :
    (rearrangeStep o s).pop.range = s.pop.range
    ∨ (rearrangeStep o s).pop.range
        = (s.pop.range.1 * gen_range (1 / 10) 2 o.genoM,
           s.pop.range.2 * gen_range (1 / 10) 2 o.genoM) := by
  obtain ⟨p, c⟩ := s
  cases hre : p.rearrangement
  · rw [rearrangeStep_none o p c hre]
    exact Or.inl rfl
  · cases hb : p.best with
    | none =>
      rw [rearrangeStep_genocide_nobest o p c hre hb]
      exact Or.inl rfl
    | some b =>
      cases hlb : p.last_best with
      | none =>
        rw [rearrangeStep_genocide_nolast o p c hre b hb hlb]
        exact Or.inl rfl
      | some lb =>
        rw [rearrangeStep_genocide o p c hre b lb hb hlb]
        split_ifs
        · exact Or.inr (genocide_range ..)
        · exact Or.inl rfl
        · exact Or.inl rfl
  · rw [rearrangeStep_pred o p c hre]
    exact Or.inl (random_predation_range ..)

/-! ## `runStep` and `states` -/

lemma runStep_pop_generation (o : StepOracle) (s : RunState) :
    (runStep o s).pop.generation = s.pop.generation + 1 := by
  unfold runStep
  rw [rearrangeStep_pop_generation]
  show (selectStep o (evalStep s.pop)).generation = _
  rw [selectStep_generation, evalStep_generation]

lemma runStep_pop_global_best (o : StepOracle) (s : RunState) :
    (runStep o s).pop.global_best = (evalStep s.pop).global_best := by
  unfold runStep
  rw [rearrangeStep_pop_global_best]
  show (selectStep o (evalStep s.pop)).global_best = _
  rw [selectStep_global_best]

lemma runStep_pop_selection (o : StepOracle) (s : RunState) :
    (runStep o s).pop.selection = s.pop.selection := by
  unfold runStep
  rw [rearrangeStep_pop_selection]
  show (selectStep o (evalStep s.pop)).selection = _
  rw [selectStep_selection, evalStep_selection]

lemma runStep_pop_rearrangement (o : StepOracle) (s : RunState) :
    (runStep o s).pop.rearrangement = s.pop.rearrangement := by
  unfold runStep
  rw [rearrangeStep_pop_rearrangement]
  show (selectStep o (evalStep s.pop)).rearrangement = _
  rw [selectStep_rearrangement, evalStep_rearrangement]

lemma runStep_pop_ind_length (o : StepOracle) (s : RunState) :
    (runStep o s).pop.ind.length = s.pop.ind.length := by
  unfold runStep
  rw [rearrangeStep_pop_ind_length]
  show (selectStep o (evalStep s.pop)).ind.length = _
  rw [selectStep_ind_length]
  show (evalStep s.pop).ind.length = _
  rw [evalStep_ind]

lemma states_pop_generation (os : ℕ → StepOracle) (s0 : RunState) (n : ℕ) :
    (states os s0 n).pop.generation = s0.pop.generation + n := by
  induction n with
  | zero => rfl
  | succ n ih =>
    show (runStep (os n) (states os s0 n)).pop.generation = _
    rw [runStep_pop_generation, ih]
    omega

lemma states_pop_rearrangement (os : ℕ → StepOracle) (s0 : RunState) (n : ℕ) :
    (states os s0 n).pop.rearrangement = s0.pop.rearrangement := by
  induction n with
  | zero => rfl
  | succ n ih =>
    show (runStep (os n) (states os s0 n)).pop.rearrangement = _
    rw [runStep_pop_rearrangement, ih]

lemma states_pop_ind_length (os : ℕ → StepOracle) (s0 : RunState) (n : ℕ) :
    (states os s0 n).pop.ind.length = s0.pop.ind.length := by
  induction n with
  | zero => rfl
  | succ n ih =>
    show (runStep (os n) (states os s0 n)).pop.ind.length = _
    rw [runStep_pop_ind_length, ih]

lemma states_global_isSome (os : ℕ → StepOracle) (s0 : RunState) (n : ℕ) :
    ((states os s0 (n + 1)).pop.global_best).isSome := by
  show ((runStep (os n) (states os s0 n)).pop.global_best).isSome
  rw [runStep_pop_global_best]
  exact evalStep_global_isSome _

/-- The range after one full loop iteration: untouched unless the genocide
branch fired, in which case it is the scaled one. -/
lemma runStep_pop_range (o : StepOracle) (s : RunState) :
    (runStep o s).pop.range = s.pop.range
    ∨ (runStep o s).pop.range
        = (s.pop.range.1 * gen_range (1 / 10) 2 o.genoM,
           s.pop.range.2 * gen_range (1 / 10) 2 o.genoM) := by
  unfold runStep
  rcases rearrangeStep_pop_range o ⟨selectStep o (evalStep s.pop), s.counter⟩ with h | h
  · left
    rw [h]
    show (selectStep o (evalStep s.pop)).range = _
    rw [selectStep_range, evalStep_range]
  · right
    rw [h]
    show ((selectStep o (evalStep s.pop)).range.1 * _,
      (selectStep o (evalStep s.pop)).range.2 * _) = _
    rw [selectStep_range, evalStep_range]

/-- Reachability invariant of the run loop: the state entering an iteration
has `best = none` only with a zero stagnation counter (initially, and right
after a genocide — which itself resets the counter). -/
lemma states_best_none_counter (os : ℕ → StepOracle) (s0 : RunState)
    (h0c : s0.counter = 0) :
    ∀ n, (states os s0 n).pop.best = none → (states os s0 n).counter = 0 := by
  intro n
  cases n with
  | zero => intro _; exact h0c
  | succ m =>
    set s := states os s0 m with hs
    set p1 := selectStep (os m) (evalStep s.pop) with hp1
    have hb : p1.best = some (value s.pop.ind (best_index s.pop.ind)) := by
      rw [hp1, selectStep_best, evalStep_best]
    have hstep : states os s0 (m + 1) = rearrangeStep (os m) ⟨p1, s.counter⟩ := rfl
    rw [hstep]
    cases hre : p1.rearrangement with
    | None =>
      rw [rearrangeStep_none _ _ _ hre]
      intro h
      rw [hb] at h
      cases h
    | RandomPredation =>
      rw [rearrangeStep_pred _ _ _ hre]
      intro h
      have h' : p1.best = none := (random_predation_best _ _).symm.trans h
      rw [hb] at h'
      cases h'
    | Genocide =>
      cases hlb : p1.last_best with
      | none =>
        rw [rearrangeStep_genocide_nolast _ _ _ hre _ hb hlb]
        intro h
        rw [hb] at h
        cases h
      | some lb =>
        rw [rearrangeStep_genocide _ _ _ hre _ lb hb hlb]
        split_ifs
        · intro _; rfl
        · intro h
          rw [hb] at h
          cases h
        · intro _; rfl

/-! ## Claim theorems -/

/-- Claim C4: after every `Evaluate` step the global best is at most the
current best in fitness; it is initialised unconditionally when unset,
replaced only by a strictly lower-fitness current best, and its fitness is
non-increasing across successive generations of the run loop. -/
theorem global_best_invariant :
    (∀ p : Population,
      fitness ((evalStep p).global_best.getD 0) ≤ fitness ((evalStep p).best.getD 0))
    ∧ (∀ p : Population,
        (evalStep { p with global_best := none }).global_best
          = some (value p.ind (best_index p.ind)))
    ∧ (∀ (p : Population) (g : ℚ),
        (evalStep { p with global_best := some g }).global_best
          = some (if fitness (value p.ind (best_index p.ind)) < fitness g
              then value p.ind (best_index p.ind) else g))
    ∧ (∀ (os : ℕ → StepOracle) (s0 : RunState) (n : ℕ),
        fitness ((states os s0 (n + 2)).pop.global_best.getD 0)
          ≤ fitness ((states os s0 (n + 1)).pop.global_best.getD 0)) := by
  refine ⟨evalStep_global_le_best, ?_, ?_, ?_⟩
  · intro p
    exact evalStep_global_best_none _ rfl
  · intro p g
    rw [evalStep_global_best_some _ g rfl]
    dsimp only
    split_ifs <;> rfl
  · intro os s0 n
    obtain ⟨g, hg⟩ := Option.isSome_iff_exists.mp (states_global_isSome os s0 n)
    have h1 : (states os s0 (n + 2)).pop.global_best
        = (evalStep (states os s0 (n + 1)).pop).global_best := by
      show (runStep (os (n + 1)) (states os s0 (n + 1))).pop.global_best = _
      exact runStep_pop_global_best _ _
    rw [h1, hg]
    simpa using evalStep_global_le _ g hg

/-- Claim C5: starting from generation 0 the run loop halts within
`MAX_GENERATIONS + 1` evaluations; the first iteration `T` after which the
stop condition holds satisfies `T ≤ MAX_GENERATIONS + 1`, the condition
fails at the end of every earlier iteration, and if the loop exits without
exhausting the generation budget then the global best is below
`FITNESS_TOLERANCE` at exit. -/
theorem run_terminates (os : ℕ → StepOracle) (p0 : Population) (c0 : ℕ) :
    ∃ T : ℕ, 1 ≤ T ∧ T ≤ MAX_GENERATIONS + 1
      ∧ StopCond ((states os ⟨{ p0 with generation := 0 }, c0⟩ T).pop)
      ∧ (∀ m, 1 ≤ m → m < T →
          ¬ StopCond ((states os ⟨{ p0 with generation := 0 }, c0⟩ m).pop))
      ∧ ((states os ⟨{ p0 with generation := 0 }, c0⟩ T).pop.generation ≤ MAX_GENERATIONS →
          fitness ((states os ⟨{ p0 with generation := 0 }, c0⟩ T).pop.global_best.getD 0)
            < FITNESS_TOLERANCE) := by
  have hgen : ∀ n, (states os ⟨{ p0 with generation := 0 }, c0⟩ n).pop.generation = n := by
    intro n
    rw [states_pop_generation]
    show 0 + n = n
    omega
  have hstop :
      StopCond ((states os ⟨{ p0 with generation := 0 }, c0⟩ (MAX_GENERATIONS + 1)).pop) := by
    unfold StopCond
    refine Or.inr ?_
    rw [hgen]
    omega
  have hex : ∃ k,
      StopCond ((states os ⟨{ p0 with generation := 0 }, c0⟩ (k + 1)).pop) :=
    ⟨MAX_GENERATIONS, hstop⟩
  refine ⟨Nat.find hex + 1, by omega, ?_, Nat.find_spec hex, ?_, ?_⟩
  · have hle : Nat.find hex ≤ MAX_GENERATIONS := Nat.find_min' hex hstop
    omega
  · intro m hm1 hmT
    obtain ⟨k, rfl⟩ : ∃ k, m = k + 1 := ⟨m - 1, by omega⟩
    exact Nat.find_min hex (by omega)
  · intro hgl
    have hsp := Nat.find_spec hex
    unfold StopCond at hsp
    rcases hsp with h | h
    · exact h
    · exfalso
      rw [hgen] at h hgl
      omega

/-- Claim C2: with the `Genocide` rearrangement, the stagnation counter is
incremented exactly on generations where both the current best and the
previous best are defined and differ by less than `BEST_DELTA`; it resets to
0 when the delta condition fails and is 0 whenever the previous best is
undefined (in every reachable such state it already is 0, and stays 0);
when the incremented counter reaches `COUNTER_GENOCIDE = 5` a genocide event
fires and the counter resets to 0.  `genocideCounterSpec` transcribes the
claimed update, `genocideTrigger` the claimed firing condition. -/
theorem genocide_counter_characterization (os : ℕ → StepOracle) (p0 : Population) (n : ℕ) :
    let s0 : RunState := ⟨{ p0 with rearrangement := Rearrangement.Genocide, best := none }, 0⟩
    let s := states os s0 n
    let p1 := selectStep (os n) (evalStep s.pop)
    (states os s0 (n + 1)).counter
        = genocideCounterSpec p1.last_best (p1.best.getD 0) s.counter
    ∧ (states os s0 (n + 1)).pop
        = (if genocideTrigger p1 s.counter
            then genocide (os n).genoM (os n).genoSpawn p1 else p1) := by
  intro s0 s p1
  have hre1 : s.pop.rearrangement = Rearrangement.Genocide :=
    (states_pop_rearrangement os s0 n).trans rfl
  have hre : p1.rearrangement = Rearrangement.Genocide := by
    show (selectStep (os n) (evalStep s.pop)).rearrangement = _
    rw [selectStep_rearrangement, evalStep_rearrangement]
    exact hre1
  have hb : p1.best = some (value s.pop.ind (best_index s.pop.ind)) := by
    show (selectStep (os n) (evalStep s.pop)).best = _
    rw [selectStep_best, evalStep_best]
  have hlb : p1.last_best = s.pop.best := by
    show (selectStep (os n) (evalStep s.pop)).last_best = _
    rw [selectStep_last_best, evalStep_last_best]
  have hstep : states os s0 (n + 1) = rearrangeStep (os n) ⟨p1, s.counter⟩ := rfl
  cases hsb : s.pop.best with
  | none =>
    have hcnt : s.counter = 0 := states_best_none_counter os s0 rfl n hsb
    have hlb' : p1.last_best = none := hlb.trans hsb
    constructor
    · rw [hstep, rearrangeStep_genocide_nolast (os n) p1 s.counter hre _ hb hlb']
      simp [genocideCounterSpec, hlb', hcnt]
    · rw [hstep, rearrangeStep_genocide_nolast (os n) p1 s.counter hre _ hb hlb']
      simp [genocideTrigger, hb, hlb']
  | some b0 =>
    have hlb' : p1.last_best = some b0 := hlb.trans hsb
    constructor
    · rw [hstep, rearrangeStep_genocide (os n) p1 s.counter hre _ b0 hb hlb']
      by_cases hA : |value s.pop.ind (best_index s.pop.ind) - b0| < BEST_DELTA
      · by_cases hB : s.counter + 1 ≥ COUNTER_GENOCIDE
        · simp [hA, hB, genocideCounterSpec, hb, hlb']
        · simp [hA, hB, genocideCounterSpec, hb, hlb']
      · simp [hA, genocideCounterSpec, hb, hlb']
    · rw [hstep, rearrangeStep_genocide (os n) p1 s.counter hre _ b0 hb hlb']
      by_cases hA : |value s.pop.ind (best_index s.pop.ind) - b0| < BEST_DELTA
      · by_cases hB : s.counter + 1 ≥ COUNTER_GENOCIDE
        · simp [hA, hB, genocideTrigger, hb, hlb']
        · simp [hA, hB, genocideTrigger, hb, hlb']
      · simp [hA, genocideTrigger, hb, hlb']

/-- Claim C10: the spawn interval starts as `[-100, 100)`, only genocide
modifies it — scaling both endpoints by the same multiplier
`m = gen_range(0.1, 2.0)`, positive for every uniform draw — so along every
run `range.start < 0 < range.end` holds, every genocide respawn draw is over
a non-empty range, and the empty-range failure of `gen_range` is
unreachable. -/
theorem spawn_interval_validity (os : ℕ → StepOracle) (p0 : Population) (c0 : ℕ)
    (hos : ∀ n, 0 ≤ (os n).genoM ∧ (os n).genoM < 1) :
    (∀ p : Population, (evalStep p).range = p.range)
    ∧ (∀ (o : StepOracle) (p : Population), (selectStep o p).range = p.range)
    ∧ (∀ (u : ℚ) (p : Population), (random_predation u p).range = p.range)
    ∧ (∀ (uM : ℚ) (uS : ℕ → ℚ) (p : Population),
        (genocide uM uS p).range
          = (p.range.1 * gen_range (1 / 10) 2 uM, p.range.2 * gen_range (1 / 10) 2 uM))
    ∧ (∀ uM : ℚ, 0 ≤ uM → uM < 1 → 0 < gen_range (1 / 10) 2 uM)
    ∧ (∀ n, (states os ⟨{ p0 with range := INITIAL_INTERVAL }, c0⟩ n).pop.range.1 < 0
        ∧ 0 < (states os ⟨{ p0 with range := INITIAL_INTERVAL }, c0⟩ n).pop.range.2)
    ∧ (∀ (n : ℕ) (u : ℚ),
        (gen_range?
          ((states os ⟨{ p0 with range := INITIAL_INTERVAL }, c0⟩ n).pop.range.1
            * gen_range (1 / 10) 2 (os n).genoM)
          ((states os ⟨{ p0 with range := INITIAL_INTERVAL }, c0⟩ n).pop.range.2
            * gen_range (1 / 10) 2 (os n).genoM)
          u).isSome = true) := by
  have hm : ∀ uM : ℚ, 0 ≤ uM → uM < 1 → 0 < gen_range (1 / 10) 2 uM := by
    intro uM h0 _
    have hnn : 0 ≤ uM * (2 - 1 / 10) := mul_nonneg h0 (by norm_num)
    show 0 < 1 / 10 + uM * (2 - 1 / 10)
    linarith
  have hinv : ∀ n, (states os ⟨{ p0 with range := INITIAL_INTERVAL }, c0⟩ n).pop.range.1 < 0
      ∧ 0 < (states os ⟨{ p0 with range := INITIAL_INTERVAL }, c0⟩ n).pop.range.2 := by
    intro n
    induction n with
    | zero =>
      constructor
      · show (-100 : ℚ) < 0
        norm_num
      · show (0 : ℚ) < 100
        norm_num
    | succ n ih =>
      have hmn : 0 < gen_range (1 / 10) 2 (os n).genoM := hm _ (hos n).1 (hos n).2
      have hr : states os ⟨{ p0 with range := INITIAL_INTERVAL }, c0⟩ (n + 1)
          = runStep (os n) (states os ⟨{ p0 with range := INITIAL_INTERVAL }, c0⟩ n) := rfl
      rw [hr]
      rcases runStep_pop_range (os n)
          (states os ⟨{ p0 with range := INITIAL_INTERVAL }, c0⟩ n) with h | h
      · rw [h]
        exact ih
      · rw [h]
        exact ⟨mul_neg_of_neg_of_pos ih.1 hmn, mul_pos ih.2 hmn⟩
  refine ⟨evalStep_range, selectStep_range, random_predation_range, genocide_range, hm,
    hinv, ?_⟩
  · intro n u
    have hmn : 0 < gen_range (1 / 10) 2 (os n).genoM := hm _ (hos n).1 (hos n).2
    have h1 := mul_neg_of_neg_of_pos (hinv n).1 hmn
    have h2 := mul_pos (hinv n).2 hmn
    unfold gen_range?
    rw [if_pos (lt_trans h1 h2)]
    rfl

/-- Claim C10 witness: a concrete run with all oracle draws at 0. -/
theorem spawn_interval_validity_witness :
    (∀ n : ℕ,
      (0 : ℚ) ≤ ((fun _ : ℕ =>
          (⟨fun _ => (0, 0, 0, 0), fun _ => 0, 0, fun _ => 0, 0⟩ : StepOracle)) n).genoM
      ∧ ((fun _ : ℕ =>
          (⟨fun _ => (0, 0, 0, 0), fun _ => 0, 0, fun _ => 0, 0⟩ : StepOracle)) n).genoM < 1)
    ∧ ((∀ p : Population, (evalStep p).range = p.range)
      ∧ (∀ (o : StepOracle) (p : Population), (selectStep o p).range = p.range)
      ∧ (∀ (u : ℚ) (p : Population), (random_predation u p).range = p.range)
      ∧ (∀ (uM : ℚ) (uS : ℕ → ℚ) (p : Population),
          (genocide uM uS p).range
            = (p.range.1 * gen_range (1 / 10) 2 uM, p.range.2 * gen_range (1 / 10) 2 uM))
      ∧ (∀ uM : ℚ, 0 ≤ uM → uM < 1 → 0 < gen_range (1 / 10) 2 uM)
      ∧ (∀ n, (states (fun _ =>
            (⟨fun _ => (0, 0, 0, 0), fun _ => 0, 0, fun _ => 0, 0⟩ : StepOracle))
            ⟨{ (⟨Selection.Elitism, Rearrangement.Genocide, ((-1 : ℚ), 1), [3, 7], 0,
                none, none, none⟩ : Population) with range := INITIAL_INTERVAL }, 0⟩
            n).pop.range.1 < 0
          ∧ 0 < (states (fun _ =>
            (⟨fun _ => (0, 0, 0, 0), fun _ => 0, 0, fun _ => 0, 0⟩ : StepOracle))
            ⟨{ (⟨Selection.Elitism, Rearrangement.Genocide, ((-1 : ℚ), 1), [3, 7], 0,
                none, none, none⟩ : Population) with range := INITIAL_INTERVAL }, 0⟩
            n).pop.range.2)
      ∧ (∀ (n : ℕ) (u : ℚ),
          (gen_range?
            ((states (fun _ =>
              (⟨fun _ => (0, 0, 0, 0), fun _ => 0, 0, fun _ => 0, 0⟩ : StepOracle))
              ⟨{ (⟨Selection.Elitism, Rearrangement.Genocide, ((-1 : ℚ), 1), [3, 7], 0,
                  none, none, none⟩ : Population) with range := INITIAL_INTERVAL }, 0⟩
              n).pop.range.1 * gen_range (1 / 10) 2 (0 : ℚ))
            ((states (fun _ =>
              (⟨fun _ => (0, 0, 0, 0), fun _ => 0, 0, fun _ => 0, 0⟩ : StepOracle))
              ⟨{ (⟨Selection.Elitism, Rearrangement.Genocide, ((-1 : ℚ), 1), [3, 7], 0,
                  none, none, none⟩ : Population) with range := INITIAL_INTERVAL }, 0⟩
              n).pop.range.2 * gen_range (1 / 10) 2 (0 : ℚ))
            u).isSome = true)) :=
  ⟨fun _ => ⟨le_refl 0, by norm_num⟩,
    spawn_interval_validity
      (fun _ => (⟨fun _ => (0, 0, 0, 0), fun _ => 0, 0, fun _ => 0, 0⟩ : StepOracle))
      (⟨Selection.Elitism, Rearrangement.Genocide, ((-1 : ℚ), 1), [3, 7], 0,
        none, none, none⟩ : Population) 0
      (fun _ => ⟨le_refl 0, by norm_num⟩)⟩

/-- Claim C3 (code-bug evidence): in the population `[NaN, 478.0]` the
second individual has non-NaN fitness (478 is an exact root, fitness 0), yet
`best_index` returns index 0, whose fitness is NaN — because the scan
initialises the running best with the fitness of index 0 and every IEEE
comparison `current < NaN` is false, so the initial index is never
replaced.  This contradicts the claim that a NaN-fitness individual is never
selected as best when some individual has non-NaN fitness. -/
theorem best_index_nan_at_head :
    best_indexF [F.nan, F.fin 478] = 0
    ∧ fitnessF (valueF [F.nan, F.fin 478] 0) = F.nan
    ∧ fitnessF (valueF [F.nan, F.fin 478] 1) ≠ F.nan := by
  have h478 : fitnessF (valueF [F.nan, F.fin 478] 1) = F.fin 0 := by
    show fitnessF (F.fin 478) = F.fin 0
    norm_num [fitnessF, functionF, F.sub, F.neg, F.add, F.mul, F.abs]
  refine ⟨?_, rfl, by rw [h478]; decide⟩
  norm_num [best_indexF, valueF, List.range_succ, fitnessF, functionF,
    F.sub, F.neg, F.add, F.mul, F.abs, F.lt]

/-- Claim C7: elitism carries the champion — the minimum-fitness individual,
ties broken by first occurrence in index order under strictly-less
comparison — over unchanged at its index, replaces every non-champion
individual `i` by `mutate((value_i + championValue) / 2)` computed from its
own pre-selection value and the champion's value, and increments the
generation by exactly one. -/
theorem elitism_characterization (oMut : ℕ → ℚ) (p : Population)
    (h : 0 < p.ind.length) :
    value (elitism oMut p).ind (best_index p.ind) = value p.ind (best_index p.ind)
    ∧ (∀ i, i < p.ind.length → i ≠ best_index p.ind →
        value (elitism oMut p).ind i
          = mutation ((value p.ind i + value p.ind (best_index p.ind)) / 2) (oMut i))
    ∧ (elitism oMut p).generation = p.generation + 1
    ∧ (∀ j, j < p.ind.length →
        fitness (value p.ind (best_index p.ind)) ≤ fitness (value p.ind j))
    ∧ (∀ j, j < best_index p.ind →
        fitness (value p.ind (best_index p.ind)) < fitness (value p.ind j)) := by
  refine ⟨?_, ?_, elitism_generation oMut p, best_index_min p.ind, best_index_first p.ind⟩
  · rw [elitism_ind_value oMut p (best_index p.ind) (best_index_lt p.ind h)]
    simp
  · intro i hi hne
    rw [elitism_ind_value oMut p i hi, if_pos hne]

/-- Claim C7 witness: a concrete two-individual population. -/
theorem elitism_characterization_witness :
    0 < [(3 : ℚ), 7].length
    ∧ (value (elitism (fun _ => 0)
          ⟨Selection.Elitism, Rearrangement.None, ((-100 : ℚ), 100), [3, 7], 0,
            none, none, none⟩).ind
          (best_index [(3 : ℚ), 7])
        = value [(3 : ℚ), 7] (best_index [(3 : ℚ), 7])
      ∧ (∀ i, i < [(3 : ℚ), 7].length → i ≠ best_index [(3 : ℚ), 7] →
          value (elitism (fun _ => 0)
              ⟨Selection.Elitism, Rearrangement.None, ((-100 : ℚ), 100), [3, 7], 0,
                none, none, none⟩).ind i
            = mutation ((value [(3 : ℚ), 7] i
                + value [(3 : ℚ), 7] (best_index [(3 : ℚ), 7])) / 2) 0)
      ∧ (elitism (fun _ => 0)
          ⟨Selection.Elitism, Rearrangement.None, ((-100 : ℚ), 100), [3, 7], 0,
            none, none, none⟩).generation = 0 + 1
      ∧ (∀ j, j < [(3 : ℚ), 7].length →
          fitness (value [(3 : ℚ), 7] (best_index [(3 : ℚ), 7]))
            ≤ fitness (value [(3 : ℚ), 7] j))
      ∧ (∀ j, j < best_index [(3 : ℚ), 7] →
          fitness (value [(3 : ℚ), 7] (best_index [(3 : ℚ), 7]))
            < fitness (value [(3 : ℚ), 7] j))) :=
  ⟨by decide,
    elitism_characterization (fun _ => 0)
      ⟨Selection.Elitism, Rearrangement.None, ((-100 : ℚ), 100), [3, 7], 0,
        none, none, none⟩ (by decide)⟩

/-- Claim C6: tournament snapshot semantics — the champion of generation `g`
is preserved unchanged at its original index in generation `g+1`, every
child is computed solely from generation `g`'s values (the `children` vector
is filled from the pre-selection population before any index is overwritten
and then committed wholesale), and the generation advances by one. -/
theorem tournament_snapshot (oIdx : ℕ → ℕ × ℕ × ℕ × ℕ) (oMut : ℕ → ℚ)
    (p : Population) (h : 0 < p.ind.length) :
    value (tournament oIdx oMut p).ind (best_index p.ind)
      = value p.ind (best_index p.ind)
    ∧ (∀ i, i < p.ind.length → i ≠ best_index p.ind →
        value (tournament oIdx oMut p).ind i = tournamentChild p.ind (oIdx i) (oMut i))
    ∧ (tournament oIdx oMut p).generation = p.generation + 1
    ∧ (tournament oIdx oMut p).ind.length = p.ind.length := by
  refine ⟨?_, ?_, tournament_generation oIdx oMut p, tournament_ind_length oIdx oMut p⟩
  · rw [tournament_ind_value oIdx oMut p (best_index p.ind) (best_index_lt p.ind h)]
    simp
  · intro i hi hne
    rw [tournament_ind_value oIdx oMut p i hi, if_pos hne]

/-- Claim C6 witness: a concrete two-individual population. -/
theorem tournament_snapshot_witness :
    0 < [(3 : ℚ), 7].length
    ∧ (value (tournament (fun _ => (0, 1, 1, 0)) (fun _ => 0)
          ⟨Selection.Tournament, Rearrangement.None, ((-100 : ℚ), 100), [3, 7], 0,
            none, none, none⟩).ind (best_index [(3 : ℚ), 7])
        = value [(3 : ℚ), 7] (best_index [(3 : ℚ), 7])
      ∧ (∀ i, i < [(3 : ℚ), 7].length → i ≠ best_index [(3 : ℚ), 7] →
          value (tournament (fun _ => (0, 1, 1, 0)) (fun _ => 0)
              ⟨Selection.Tournament, Rearrangement.None, ((-100 : ℚ), 100), [3, 7], 0,
                none, none, none⟩).ind i
            = tournamentChild [(3 : ℚ), 7] (0, 1, 1, 0) 0)
      ∧ (tournament (fun _ => (0, 1, 1, 0)) (fun _ => 0)
          ⟨Selection.Tournament, Rearrangement.None, ((-100 : ℚ), 100), [3, 7], 0,
            none, none, none⟩).generation = 0 + 1
      ∧ (tournament (fun _ => (0, 1, 1, 0)) (fun _ => 0)
          ⟨Selection.Tournament, Rearrangement.None, ((-100 : ℚ), 100), [3, 7], 0,
            none, none, none⟩).ind.length = [(3 : ℚ), 7].length) :=
  ⟨by decide,
    tournament_snapshot (fun _ => (0, 1, 1, 0)) (fun _ => 0)
      ⟨Selection.Tournament, Rearrangement.None, ((-100 : ℚ), 100), [3, 7], 0,
        none, none, none⟩ (by decide)⟩

/-- Claim C1 (amended): for every non-champion index, the child committed to
the next generation equals `mutate((parentA + parentB) / 2)`, where each
parent is the winner of an independent mini-tournament of two individuals
drawn (with replacement) from the pre-selection population, the winner being
the one with strictly lower fitness — and when the two drawn individuals
have equal fitness the winner is the *second* drawn (the code's
`if fitness(x1) < fitness(x2) { x1 } else { x2 }` falls to `x2` on ties). -/
theorem tournament_child_formula (oIdx : ℕ → ℕ × ℕ × ℕ × ℕ) (oMut : ℕ → ℚ)
    (p : Population) (i : ℕ) (hi : i < p.ind.length) (hne : i ≠ best_index p.ind) :
    value (tournament oIdx oMut p).ind i
      = mutation ((miniTournament (value p.ind (oIdx i).1) (value p.ind (oIdx i).2.1)
          + miniTournament (value p.ind (oIdx i).2.2.1) (value p.ind (oIdx i).2.2.2)) / 2)
          (oMut i)
    ∧ (∀ x1 x2 : ℚ, fitness x1 < fitness x2 → miniTournament x1 x2 = x1)
    ∧ (∀ x1 x2 : ℚ, fitness x2 < fitness x1 → miniTournament x1 x2 = x2)
    ∧ (∀ x1 x2 : ℚ, fitness x1 = fitness x2 → miniTournament x1 x2 = x2) := by
  refine ⟨?_, ?_, ?_, ?_⟩
  · rw [tournament_ind_value oIdx oMut p i hi, if_pos hne]
    rfl
  · intro x1 x2 hlt
    exact if_pos hlt
  · intro x1 x2 hlt
    exact if_neg (not_lt.mpr (le_of_lt hlt))
  · intro x1 x2 heq
    exact if_neg (not_lt.mpr (le_of_eq heq.symm))

/-- Claim C1 witness: a concrete non-champion index of a concrete
population. -/
theorem tournament_child_formula_witness :
    0 < [(3 : ℚ), 7].length
    ∧ 0 ≠ best_index [(3 : ℚ), 7]
    ∧ (value (tournament (fun _ => (0, 1, 1, 0)) (fun _ => 0)
          ⟨Selection.Tournament, Rearrangement.None, ((-100 : ℚ), 100), [3, 7], 0,
            none, none, none⟩).ind 0
        = mutation ((miniTournament (value [(3 : ℚ), 7] 0) (value [(3 : ℚ), 7] 1)
            + miniTournament (value [(3 : ℚ), 7] 1) (value [(3 : ℚ), 7] 0)) / 2) 0
      ∧ (∀ x1 x2 : ℚ, fitness x1 < fitness x2 → miniTournament x1 x2 = x1)
      ∧ (∀ x1 x2 : ℚ, fitness x2 < fitness x1 → miniTournament x1 x2 = x2)
      ∧ (∀ x1 x2 : ℚ, fitness x1 = fitness x2 → miniTournament x1 x2 = x2)) :=
  ⟨by decide,
    by norm_num [best_index, scanMin, value, fitness, function, List.range_succ],
    tournament_child_formula (fun _ => (0, 1, 1, 0)) (fun _ => 0)
      ⟨Selection.Tournament, Rearrangement.None, ((-100 : ℚ), 100), [3, 7], 0,
        none, none, none⟩ 0 (by decide)
      (by norm_num [best_index, scanMin, value, fitness, function, List.range_succ])⟩

/-- Claim C1 counterexample: the claim's tie-break rule ("when the two drawn
individuals have equal fitness the winner is the first drawn") is false for
the code.  In the population `[478, 1240]` both individuals are exact roots
(fitness 0); index 0 is the champion; for the non-champion index 1, with all
four draws alternating between the two tied individuals and a mutation draw
of `1/2` (offset 0), the code commits the child `1240` (second-drawn
winners), while the claimed first-drawn rule would commit `478 ≠ 1240`. -/
theorem tournament_tie_counterexample :
    best_index [(478 : ℚ), 1240] = 0
    ∧ value (tournament (fun _ => (0, 1, 0, 1)) (fun _ => 1 / 2)
        ⟨Selection.Tournament, Rearrangement.None, ((-100 : ℚ), 100), [478, 1240], 0,
          none, none, none⟩).ind 1 = 1240
    ∧ mutation ((miniTournamentFirst (value [(478 : ℚ), 1240] 0) (value [(478 : ℚ), 1240] 1)
        + miniTournamentFirst (value [(478 : ℚ), 1240] 0) (value [(478 : ℚ), 1240] 1)) / 2)
        (1 / 2) = 478
    ∧ (1240 : ℚ) ≠ 478 := by
  have hb : best_index [(478 : ℚ), 1240] = 0 := by
    norm_num [best_index, scanMin, value, fitness, function, List.range_succ]
  refine ⟨hb, ?_, ?_, by norm_num⟩
  · rw [tournament_ind_value (fun _ => (0, 1, 0, 1)) (fun _ => 1 / 2)
      ⟨Selection.Tournament, Rearrangement.None, ((-100 : ℚ), 100), [478, 1240], 0,
        none, none, none⟩ 1 (by decide)]
    rw [if_pos (by rw [hb]; exact one_ne_zero)]
    norm_num [tournamentChild, miniTournament, value, fitness, function, mutation,
      gen_range, MUTATION_INTERVAL, MUTATION_RATE]
  · norm_num [miniTournamentFirst, value, fitness, function, mutation, gen_range,
      MUTATION_INTERVAL, MUTATION_RATE]

/-- Claim C8: random predation replaces exactly the worst-fitness individual
(ties broken by first occurrence in index order under strictly-greater
comparison) with a fresh uniform draw from the original default spawn
interval `[-100, 100)` — independent of the population's possibly
genocide-altered `range`, which the operation also leaves untouched — and
changes no other index. -/
theorem random_predation_characterization (u : ℚ) (p : Population)
    (h : 0 < p.ind.length) (hu0 : 0 ≤ u) (hu1 : u < 1) :
    value (random_predation u p).ind (worst_index p.ind) = individual u
    ∧ INITIAL_INTERVAL.1 ≤ individual u
    ∧ individual u < INITIAL_INTERVAL.2
    ∧ (∀ i, i ≠ worst_index p.ind →
        value (random_predation u p).ind i = value p.ind i)
    ∧ (∀ j, j < p.ind.length →
        fitness (value p.ind j) ≤ fitness (value p.ind (worst_index p.ind)))
    ∧ (∀ j, j < worst_index p.ind →
        fitness (value p.ind j) < fitness (value p.ind (worst_index p.ind)))
    ∧ (random_predation u p).range = p.range
    ∧ (random_predation u p).generation = p.generation
    ∧ (random_predation u p).ind.length = p.ind.length := by
  refine ⟨random_predation_ind_worst u p h, ?_, ?_,
    fun i hne => random_predation_ind_other u p i hne,
    worst_index_max p.ind, worst_index_first p.ind,
    random_predation_range u p, random_predation_generation u p,
    random_predation_ind_length u p⟩
  · show (-100 : ℚ) ≤ -100 + u * (100 - -100)
    nlinarith
  · show (-100 : ℚ) + u * (100 - -100) < 100
    nlinarith

/-- Claim C8 witness: a concrete population with a genocide-style altered
range `(-1, 1)`; the replacement draw still lands in `[-100, 100)`. -/
theorem random_predation_characterization_witness :
    0 < [(3 : ℚ), 7].length ∧ (0 : ℚ) ≤ 1 / 2 ∧ (1 / 2 : ℚ) < 1
    ∧ (value (random_predation (1 / 2)
          ⟨Selection.Elitism, Rearrangement.RandomPredation, ((-1 : ℚ), 1), [3, 7], 5,
            none, none, none⟩).ind (worst_index [(3 : ℚ), 7])
        = individual (1 / 2)
      ∧ INITIAL_INTERVAL.1 ≤ individual (1 / 2)
      ∧ individual (1 / 2) < INITIAL_INTERVAL.2
      ∧ (∀ i, i ≠ worst_index [(3 : ℚ), 7] →
          value (random_predation (1 / 2)
              ⟨Selection.Elitism, Rearrangement.RandomPredation, ((-1 : ℚ), 1), [3, 7], 5,
                none, none, none⟩).ind i = value [(3 : ℚ), 7] i)
      ∧ (∀ j, j < [(3 : ℚ), 7].length →
          fitness (value [(3 : ℚ), 7] j)
            ≤ fitness (value [(3 : ℚ), 7] (worst_index [(3 : ℚ), 7])))
      ∧ (∀ j, j < worst_index [(3 : ℚ), 7] →
          fitness (value [(3 : ℚ), 7] j)
            < fitness (value [(3 : ℚ), 7] (worst_index [(3 : ℚ), 7])))
      ∧ (random_predation (1 / 2)
          ⟨Selection.Elitism, Rearrangement.RandomPredation, ((-1 : ℚ), 1), [3, 7], 5,
            none, none, none⟩).range = ((-1 : ℚ), 1)
      ∧ (random_predation (1 / 2)
          ⟨Selection.Elitism, Rearrangement.RandomPredation, ((-1 : ℚ), 1), [3, 7], 5,
            none, none, none⟩).generation = 5
      ∧ (random_predation (1 / 2)
          ⟨Selection.Elitism, Rearrangement.RandomPredation, ((-1 : ℚ), 1), [3, 7], 5,
            none, none, none⟩).ind.length = [(3 : ℚ), 7].length) :=
  ⟨by decide, by norm_num, by norm_num,
    random_predation_characterization (1 / 2)
      ⟨Selection.Elitism, Rearrangement.RandomPredation, ((-1 : ℚ), 1), [3, 7], 5,
        none, none, none⟩ (by decide) (by norm_num) (by norm_num)⟩

/-- Claim C9: the population's value sequence always has length exactly
`N = 100` — construction produces `POPULATION_SIZE` individuals, every
selection and rearrangement operation preserves the length, and hence every
generation of every run of a freshly constructed population has length
`POPULATION_SIZE = 100`. -/
theorem population_size_invariant :
    (∀ sel re oInit, (Population.new sel re oInit).ind.length = POPULATION_SIZE)
    ∧ POPULATION_SIZE = 100
    ∧ (∀ (oMut : ℕ → ℚ) (p : Population), (elitism oMut p).ind.length = p.ind.length)
    ∧ (∀ (oIdx : ℕ → ℕ × ℕ × ℕ × ℕ) (oMut : ℕ → ℚ) (p : Population),
        (tournament oIdx oMut p).ind.length = p.ind.length)
    ∧ (∀ (uM : ℚ) (uS : ℕ → ℚ) (p : Population),
        (genocide uM uS p).ind.length = p.ind.length)
    ∧ (∀ (u : ℚ) (p : Population), (random_predation u p).ind.length = p.ind.length)
    ∧ (∀ (os : ℕ → StepOracle) sel re oInit (n : ℕ),
        (states os ⟨Population.new sel re oInit, 0⟩ n).pop.ind.length = POPULATION_SIZE) := by
  refine ⟨?_, rfl, elitism_ind_length, tournament_ind_length, genocide_ind_length,
    random_predation_ind_length, ?_⟩
  · intro sel re oInit
    simp [Population.new]
  · intro os sel re oInit n
    rw [states_pop_ind_length]
    show (Population.new sel re oInit).ind.length = POPULATION_SIZE
    simp [Population.new]

end RootFn
